import Mathlib

/-!
Shallow embedding of the secret-resolution core of the `vx` CLI
(config merge, path grouping, KV cache, resolver, token renewal,
child runner) together with proofs of the specification claims.

Go maps are modelled as association lists (`List (String × key)`):
`alookup` is map indexing (first match), `ainsert` is map assignment
(replace the existing binding in place, else append).  Go strings are
modelled through their character lists where structural reasoning is
needed.
-/

namespace VX

/-- Go map indexing `m[k]`: the value of the first binding of `k`. -/
def alookup {α : Type} : List (String × α) → String → Option α
  | [], _ => none
  | (k0, v0) :: rest, k => if k0 = k then some v0 else alookup rest k

/-- Go map assignment `m[k] = v`: replace the binding of `k` in place,
or append a new binding. -/
def ainsert {α : Type} : List (String × α) → String → α → List (String × α)
  | [], k, v => [(k, v)]
  | (k0, v0) :: rest, k, v =>
      if k0 = k then (k, v) :: rest else (k0, v0) :: ainsert rest k v

/-- The keys of a Go map. -/
def akeys {α : Type} (l : List (String × α)) : List String := l.map (·.1)

/-- A Go `map[string]string`. -/
abbrev Smap := List (String × String)

/-! ## Path template (`internal/resolver`, template file)

`Interpolate` is Go's `strings.ReplaceAll(path, "${env}", env)`:
left-to-right replacement of non-overlapping occurrences of the
six-character pattern dollar, open brace, `e`, `n`, `v`, close brace. -/

/-- The literal pattern `"${env}"` as a character list
(dollar, open brace, `e`, `n`, `v`, close brace). -/
def envPat : List Char := ['$', Char.ofNat 123, 'e', 'n', 'v', Char.ofNat 125]

/-- Left-to-right replacement of non-overlapping occurrences of `envPat`
by `env` in a character list (`strings.ReplaceAll`): when the next six
characters are the pattern, emit `env` and continue after them,
otherwise keep one character and continue. -/
def interpChars (env : List Char) : List Char → List Char
  | c0 :: c1 :: c2 :: c3 :: c4 :: c5 :: rest =>
      if [c0, c1, c2, c3, c4, c5] = envPat then
        env ++ interpChars env rest
      else
        c0 :: interpChars env (c1 :: c2 :: c3 :: c4 :: c5 :: rest)
  | c :: cs => c :: interpChars env cs
  | [] => []

/-- Function `Interpolate(path, env)` replaces every occurrence of the `${env}`
placeholder in `path` with `env`. -/
def Interpolate (path env : String) : String :=
  ⟨interpChars env.toList path.toList⟩

/-- Go's `strings.Contains` for the placeholder pattern over a character
list. -/
def hasEnvChars : List Char → Bool
  | [] => false
  | c :: cs => envPat.isPrefixOf (c :: cs) || hasEnvChars cs

/-- Function `HasEnvVar(path)` reports whether `path` contains the placeholder. -/
def HasEnvVar (path : String) : Bool :=
  hasEnvChars path.toList

/-! ## Path grouper (`internal/resolver`, grouper file) -/

/-- One `(env_var, key)` pair under a grouped vault path. -/
structure SecretMapping where
  envVar : String
  key : String
  deriving DecidableEq, Repr

/-- Split a character list at its last `'/'`: `some (p, k)` with
`p ++ '/' :: k` the input, `none` when there is no `'/'`. -/
def splitAtLastSlash : List Char → Option (List Char × List Char)
  | [] => none
  | c :: cs =>
      match splitAtLastSlash cs with
      | some (p, k) => some (c :: p, k)
      | none => if c = '/' then some ([], cs) else none

/-- Function `splitPath` splits a resolved path at the last `"/"` into a vault
path and a key; both empty when there is no separator
(`strings.LastIndex` plus slicing in the source). -/
def splitPath (path : String) : String × String :=
  match splitAtLastSlash path.toList with
  | some (p, k) => (⟨p⟩, ⟨k⟩)
  | none => ("", "")

/-- The body of `GroupByPath`'s loop: interpolate the entry's
template, split it, skip it when the split yields an empty path or an
empty key, and otherwise append the mapping to its path's group. -/
def groupStep (env : String) (groups : List (String × List SecretMapping))
    (kv : String × String) : List (String × List SecretMapping) :=
  let resolved := Interpolate kv.2 env
  let pk := splitPath resolved
  if pk.1 = "" ∨ pk.2 = "" then groups
  else
    ainsert groups pk.1
      ((alookup groups pk.1).getD [] ++ [⟨kv.1, pk.2⟩])

/-- Function `GroupByPath` groups secrets by vault path after interpolating the
environment; entries whose split yields an empty path or an empty key
are skipped. -/
def GroupByPath (secrets : Smap) (env : String) :
    List (String × List SecretMapping) :=
  secrets.foldl (groupStep env) []

/-! ## Token renewal decision (`internal/token/renewal.go`) -/

/-- Function `needsRenewal` from the source: renew exactly when the remaining
TTL is positive and under 1800 seconds.  The function takes only the
current TTL; `creation_ttl` is not consulted (not even decoded). -/
def needsRenewal (ttlSeconds : Int) : Bool :=
  ttlSeconds > 0 && ttlSeconds < 1800

/-- The renewal rule as written in the spec (for comparison with the
source's `needsRenewal`): `ttl ≤ 0` → false; `creation_ttl > 0` → true
iff `ttl < creation_ttl / 2`; otherwise → true. -/
def needsRenewalSpec (ttl creationTtl : Int) : Bool :=
  if ttl ≤ 0 then false
  else if creationTtl > 0 then ttl < creationTtl / 2
  else true

/-! ## Config types and merge (`internal/config`) -/

/-- A TOML value occurring in a `map[string]any` defaults table: a
string, a nested table, or any other value (number, bool, array, …),
which the merge code ignores. -/
inductive DVal where
  | vStr (s : String)
  | vMap (m : List (String × DVal))
  | vOther
  deriving Repr

/-- A Go `map[string]any` defaults table. -/
abbrev Dmap := List (String × DVal)

structure VaultConfig where
  address : String
  authMethod : String
  authRole : String
  basePath : String
  deriving DecidableEq, Repr

structure EnvironmentConfig where
  default : String
  available : List String
  deriving DecidableEq, Repr

structure RootConfig where
  vault : VaultConfig
  environments : EnvironmentConfig
  workspaces : List String
  secrets : Smap
  defaults : Dmap

structure WorkspaceConfig where
  secrets : Smap
  defaults : Dmap

structure MergedConfig where
  vault : VaultConfig
  environment : String
  secrets : Smap
  defaults : Smap
  deriving DecidableEq, Repr

/-- Helper `contains`: linear scan for `target` in `items`. -/
def contains (items : List String) (target : String) : Bool :=
  items.any (· = target)

/-- Function `copyStringMap`: a fresh map with every binding of `src` inserted. -/
def copyStringMap (src : Smap) : Smap :=
  src.foldl (fun result kv => ainsert result kv.1 kv.2) []

/-- Function `extractEnvDefaults` pulls the environment-specific nested table
from a defaults map, keeping only its string-valued pairs. -/
def extractEnvDefaults (defaults : Dmap) (env : String) : Smap :=
  match alookup defaults env with
  | some (.vMap envMap) =>
      envMap.foldl
        (fun result kv =>
          match kv.2 with
          | .vStr s => ainsert result kv.1 s
          | _ => result)
        []
  | _ => []

/-- Function `resolveDefaults`: string-valued base defaults, overlaid by the
environment-specific nested defaults. -/
def resolveDefaults (defaults : Dmap) (env : String) : Smap :=
  let result :=
    defaults.foldl
      (fun result kv =>
        match kv.2 with
        | .vStr s => ainsert result kv.1 s
        | _ => result)
      []
  (extractEnvDefaults defaults env).foldl
    (fun result kv => ainsert result kv.1 kv.2) result

/-- Function `mergeWorkspaceDefaults` overlays the workspace defaults (resolved
the same way) on a copy of the base defaults. -/
def mergeWorkspaceDefaults (base : Smap) (workspace : Option WorkspaceConfig)
    (env : String) : Smap :=
  match workspace with
  | none => copyStringMap base
  | some ws =>
      let result := copyStringMap base
      (resolveDefaults ws.defaults env).foldl
        (fun result kv => ainsert result kv.1 kv.2) result

/-- Function `mergeSecrets`: a copy of the root secrets, overlaid by the
workspace secrets (workspace wins per key). -/
def mergeSecrets (rootSecrets : Smap) (workspace : Option WorkspaceConfig) : Smap :=
  let result := copyStringMap rootSecrets
  match workspace with
  | none => result
  | some ws =>
      ws.secrets.foldl (fun result kv => ainsert result kv.1 kv.2) result

/-- Function `Merge(root, workspace, env)`: nil-root check, empty-env
substitution, membership check, then defaults and secrets merge.  The
`nil` root pointer is modelled by `Option`. -/
def Merge (root : Option RootConfig) (workspace : Option WorkspaceConfig)
    (env : String) : Except String MergedConfig :=
  match root with
  | none => .error "root config is required"
  | some root =>
      let env := if env = "" then root.environments.default else env
      if ¬ contains root.environments.available env then
        .error ("environment \"" ++ env ++ "\" is not in available environments")
      else
        let defaults := resolveDefaults root.defaults env
        let defaults := mergeWorkspaceDefaults defaults workspace env
        let secrets := mergeSecrets root.secrets workspace
        .ok ⟨root.vault, env, secrets, defaults⟩

/-! ## A heap of Go string maps

Go maps are mutable reference values.  Where a claim is about aliasing
or in-place mutation (the cache's defensive copies, `Merge` not
touching its inputs), maps live in an explicit heap: a reference is a
`Nat`, a cell holds the map's bindings, allocation hands out the next
free reference. -/

structure Heap where
  next : Nat
  cells : Nat → Smap

namespace Heap

/-- Reading the map a reference points to. -/
def read (h : Heap) (r : Nat) : Smap := h.cells r

/-- Allocation (Go `make` or a copy): a fresh map initialised with the given bindings. -/
def alloc (h : Heap) (m : Smap) : Nat × Heap :=
  (h.next, ⟨h.next + 1, fun r => if r = h.next then m else h.cells r⟩)

/-- Go map assignment through a reference: `(*r)[k] = v`. -/
def write (h : Heap) (r : Nat) (k v : String) : Heap :=
  ⟨h.next, fun r2 => if r2 = r then ainsert (h.cells r) k v else h.cells r2⟩

end Heap

/-! ## KV cache (`internal/resolver`, cache file)

`time.Now()` is passed in as an explicit integer instant `now`;
durations are integers in the same unit (seconds). -/

/-- Five minutes, in seconds. -/
def defaultCacheTTL : Int := 5 * 60

/-- One cached Vault response: a reference to the stored copy of the
data and its expiry instant. -/
structure CacheEntry where
  data : Nat
  expiresAt : Int

/-- Thread-safe TTL cache of `path → {key: value}`.  The entry map is
held by value; its data maps are heap references. -/
structure Cache where
  ttl : Int
  entries : List (String × CacheEntry)

/-- Constructor `NewCache`: a zero or negative TTL is replaced by the default. -/
def NewCache (ttl : Int) : Cache :=
  ⟨if ttl ≤ 0 then defaultCacheTTL else ttl, []⟩

/-- Function `copyMap`: a fresh map holding the same bindings as `*r`. -/
def copyMap (h : Heap) (r : Nat) : Nat × Heap :=
  h.alloc (h.read r)

namespace Cache

/-- Method `Get`: a hit returns a reference to a fresh copy of the stored
data; a missing or expired entry is a miss (`none`). -/
def get (c : Cache) (h : Heap) (now : Int) (path : String) :
    Option Nat × Heap :=
  match alookup c.entries path with
  | none => (none, h)
  | some entry =>
      if now > entry.expiresAt then (none, h)
      else
        let rh := copyMap h entry.data
        (some rh.1, rh.2)

/-- Method `Set`: store a copy of the supplied map under `path`, expiring
`ttl` after `now`. -/
def set (c : Cache) (h : Heap) (now : Int) (path : String) (dataRef : Nat) :
    Cache × Heap :=
  let rh := copyMap h dataRef
  (⟨c.ttl, ainsert c.entries path ⟨rh.1, now + c.ttl⟩⟩, rh.2)

/-- Method `Clear`: drop every entry. -/
def clear (c : Cache) : Cache := ⟨c.ttl, []⟩

end Cache

/-! ## Resolver (`internal/resolver/resolver.go`)

The `VaultReader` capability is a function from a full KV path to
either an error or the decoded response map (a fresh map per call).
The mutable cache pointed to by the resolver's `cache` field is
threaded explicitly; `none` models a nil cache pointer.  The Go
version fetches the grouped paths concurrently under `errgroup`; the
embedding runs the same per-path reads left to right over the group
list and keeps the first error, which is one of the schedules the Go
code can take. -/

def defaultMaxConcurrency : Nat := 10

structure Resolver where
  readKV : String → Except String Smap
  basePath : String
  maxConcurrency : Nat

namespace Resolver

/-- Method `fullPath` joins the base path with the relative path. -/
def fullPath (r : Resolver) (path : String) : String :=
  if r.basePath = "" then path else r.basePath ++ "/" ++ path

/-- Method `readWithCache`: consult the cache first; on a miss call the
reader and, on success, store a copy of the response in the cache.
The response map is returned by content. -/
def readWithCache (r : Resolver) (c : Option Cache) (h : Heap) (now : Int)
    (path : String) : Except String Smap × Option Cache × Heap :=
  let fp := r.fullPath path
  match c with
  | none =>
      match r.readKV fp with
      | .error e => (.error e, none, h)
      | .ok data => (.ok data, none, h)
  | some cache =>
      match cache.get h now fp with
      | (some dataRef, h2) => (.ok (h2.read dataRef), some cache, h2)
      | (none, h2) =>
          match r.readKV fp with
          | .error e => (.error e, some cache, h2)
          | .ok data =>
              let dh := h2.alloc data
              let ch := cache.set dh.2 now fp dh.1
              (.ok data, some ch.1, ch.2)

/-- Method `fetchAll` over the list of grouped paths: every path is read
(later reads still run after an earlier failure, as under `errgroup`),
results keyed by path, first error in list order reported, each error
wrapped with its path. -/
def fetchAll (r : Resolver) (c : Option Cache) (h : Heap) (now : Int) :
    List String → Except String (List (String × Smap)) × Option Cache × Heap
  | [] => (.ok [], c, h)
  | path :: rest =>
      let step := r.readWithCache c h now path
      let restRes := r.fetchAll step.2.1 step.2.2 now rest
      match step.1, restRes.1 with
      | .error e, _ =>
          (.error ("read vault path \"" ++ path ++ "\": " ++ e),
           restRes.2.1, restRes.2.2)
      | .ok _, .error e => (.error e, restRes.2.1, restRes.2.2)
      | .ok data, .ok results =>
          (.ok (ainsert results path data), restRes.2.1, restRes.2.2)

/-- Method `mapResults`: join phase; an env var is set iff its key is present
in the fetched data of its group. -/
def mapResults (groups : List (String × List SecretMapping))
    (results : List (String × Smap)) : Smap :=
  groups.foldl
    (fun resolved g =>
      let data := (alookup results g.1).getD []
      g.2.foldl
        (fun resolved m =>
          match alookup data m.key with
          | some val => ainsert resolved m.envVar val
          | none => resolved)
        resolved)
    []

/-- Method `Resolve`: empty input short-circuits; otherwise group, fetch all
groups, and join.  On any fetch failure the whole call returns an
error (the `Except` carries no mapping). -/
def Resolve (r : Resolver) (c : Option Cache) (h : Heap) (now : Int)
    (secrets : Smap) (env : String) :
    Except String Smap × Option Cache × Heap :=
  if secrets.length = 0 then (.ok [], c, h)
  else
    let groups := GroupByPath secrets env
    let fr := r.fetchAll c h now (akeys groups)
    match fr.1 with
    | .error e => (.error ("resolve secrets: " ++ e), fr.2.1, fr.2.2)
    | .ok results => (.ok (mapResults groups results), fr.2.1, fr.2.2)

end Resolver

/-! ## Heap-level merge (`internal/config/merge.go`)

For the purity claim the two secrets maps of the inputs are heap
references; the `defaults` tables (`map[string]any`) appear by value
because no statement of the merge source writes to one.  `Merge` reads
its inputs and builds fresh result maps; the wrapper makes the
allocation of the two fresh maps explicit. -/

structure RootConfigRef where
  vault : VaultConfig
  environments : EnvironmentConfig
  workspaces : List String
  secrets : Nat
  defaults : Dmap

structure WorkspaceConfigRef where
  secrets : Nat
  defaults : Dmap

structure MergedConfigRef where
  vault : VaultConfig
  environment : String
  secrets : Nat
  defaults : Smap

/-- The pure config a root reference denotes in a heap. -/
def RootConfigRef.deref (h : Heap) (r : RootConfigRef) : RootConfig :=
  ⟨r.vault, r.environments, r.workspaces, h.read r.secrets, r.defaults⟩

/-- The pure config a workspace reference denotes in a heap. -/
def WorkspaceConfigRef.deref (h : Heap) (w : WorkspaceConfigRef) : WorkspaceConfig :=
  ⟨h.read w.secrets, w.defaults⟩

/-- Function `Merge` with its inputs' secrets maps on the heap: run the merge
on the referenced contents and allocate the fresh result maps.  The
merged defaults map never aliases anything, so it stays by value; the
merged secrets map is allocated. -/
def MergeH (h : Heap) (root : Option RootConfigRef)
    (workspace : Option WorkspaceConfigRef) (env : String) :
    Except String MergedConfigRef × Heap :=
  match Merge (root.map (·.deref h)) (workspace.map (·.deref h)) env with
  | .error e => (.error e, h)
  | .ok m =>
      let sh := h.alloc m.secrets
      (.ok ⟨m.vault, m.environment, sh.1, m.defaults⟩, sh.2)

/-! ## Token renewal (`internal/token/renewal.go`)

`RenewOnce` is modelled over the outcomes of its three effects: the
sink read, the `lookup-self` call and the `renew-self` call.  A write
of the renewed token to the sink is reported in the result. -/

/-- The decoded `data` object of a `lookup-self` response.  The
`expire_time` JSON field is `any` in the source; `none` models JSON
null/absent. -/
structure LookupData where
  ttl : Int
  expireTime : Option String
  renewable : Bool

/-- The decoded `auth.client_token` of a `renew-self` response. -/
structure RenewData where
  clientToken : String

/-- What one `RenewOnce` call did. -/
inductive RenewOutcome where
  | failed (stage : String)
  | noRenewal
  | renewed (newToken : String)
  deriving DecidableEq, Repr

/-- Method `RenewOnce`: read the token, look it up, return early when the
token is not renewable or `needsRenewal` is false, otherwise renew
(an empty client token in the response is an error) and write the new
token to the sink. -/
def RenewOnce (readToken : Except String String)
    (lookup : Except String LookupData)
    (renew : Except String RenewData) : RenewOutcome :=
  match readToken with
  | .error _ => .failed "read"
  | .ok _ =>
      match lookup with
      | .error _ => .failed "lookup"
      | .ok d =>
          if ¬ d.renewable then .noRenewal
          else if ¬ needsRenewal d.ttl then .noRenewal
          else
            match renew with
            | .error _ => .failed "renew-self"
            | .ok rd =>
                if rd.clientToken = "" then .failed "renew-self"
                else .renewed rd.clientToken

/-! ## Child runner (`internal/exec/runner.go`) -/

/-- An error value returned by waiting on a child process: either an
`exec.ExitError` carrying the child's exit code, or any other error. -/
inductive GoError where
  | exitError (code : Int)
  | otherError (msg : String)
  deriving DecidableEq, Repr

/-- Function `ExitCode`: 0 for nil, the child's code for an exit error, 1 for
every other error. -/
def ExitCode : Option GoError → Int
  | none => 0
  | some (.exitError code) => code
  | some (.otherError _) => 1

/-- Function `Run` modelled over the outcomes of its two effects (spawning and
waiting): an empty command is refused, a spawn failure is wrapped, and
otherwise the child's wait error is returned unchanged. -/
def Run (command : List String) (startErr : Option String)
    (waitResult : Option GoError) : Option GoError :=
  if command.length = 0 then some (.otherError "command must not be empty")
  else
    match startErr with
    | some e =>
        some (.otherError ("starting command \"" ++ command.headD "" ++ "\": " ++ e))
    | none => waitResult

/-! ## Spec-side definitions and scenario helpers

These follow the spec's words (not the source) and exist to be
compared with the source-derived definitions above. -/

/-- All env-var names produced across the groups of a grouping result
(the union the grouper round-trip law speaks about). -/
def groupedEnvVars (groups : List (String × List SecretMapping)) : List String :=
  groups.foldr (fun g acc => g.2.map (·.envVar) ++ acc) []

/-- Whether one secrets entry belongs under vault path `p`, and with
which mapping: its interpolated template must split at the last slash
into exactly `p` and a key, neither empty. -/
def groupSelect (env p : String) (kv : String × String) : Option SecretMapping :=
  let pk := splitPath (Interpolate kv.2 env)
  if pk.1 = p ∧ ¬ (pk.1 = "" ∨ pk.2 = "") then some ⟨kv.1, pk.2⟩ else none

/-- The mappings the grouper should file under vault path `p`: one per
secrets entry whose interpolated template splits at its last slash
into exactly `p` and a non-empty key. -/
def groupOf (secrets : Smap) (env p : String) : List SecretMapping :=
  secrets.filterMap (groupSelect env p)

/-- The string-valued base defaults of a defaults table, as the spec
words them. -/
def specBaseDefaults (d : Dmap) : Smap :=
  d.filterMap
    (fun kv =>
      match kv.2 with
      | .vStr s => some (kv.1, s)
      | _ => none)

/-- The env-specific nested defaults of a defaults table, as the spec
words them. -/
def specEnvDefaults (d : Dmap) (env : String) : Smap :=
  match alookup d env with
  | some (.vMap m) => specBaseDefaults m
  | _ => []

/-- The defaults overlay chain of the spec: root base, then root
env-specific, then workspace base, then workspace env-specific, later
wins — so lookup prefers the later layers. -/
def specDefaultsOverlay (root : RootConfig) (ws : Option WorkspaceConfig)
    (env k : String) : Option String :=
  let rootSide :=
    (alookup (specEnvDefaults root.defaults env) k).or
      (alookup (specBaseDefaults root.defaults) k)
  match ws with
  | none => rootSide
  | some w =>
      ((alookup (specEnvDefaults w.defaults env) k).or
        (alookup (specBaseDefaults w.defaults) k)).or rootSide

/-- Two `MergeH` results agree: same error, or same vault and
environment with equal secrets contents (each read in its own heap)
and equal defaults. -/
def mergedAgree (h1 h2 : Heap) (a b : Except String MergedConfigRef) : Prop :=
  match a, b with
  | .error e1, .error e2 => e1 = e2
  | .ok m1, .ok m2 =>
      m1.vault = m2.vault ∧ m1.environment = m2.environment ∧
      h1.read m1.secrets = h2.read m2.secrets ∧ m1.defaults = m2.defaults
  | _, _ => False

/-- The cache-isolation scenario of the spec (and of the cache tests):
`Set(p, m)`, then mutate `m`, then `Get(p) → g1`, then mutate `g1`,
then `Get(p) → g2`; the result pairs the two mappings the gets
returned (`none` if either get missed). -/
def cacheScenario (c : Cache) (h : Heap) (now now2 now3 : Int) (p : String)
    (m : Nat) (k1 v1 k2 v2 : String) : Option (Smap × Smap) :=
  let sh := c.set h now p m
  let h2 := sh.2.write m k1 v1
  match sh.1.get h2 now2 p with
  | (some g1, h3) =>
      let h4 := h3.write g1 k2 v2
      match sh.1.get h4 now3 p with
      | (some g2, h5) => some (h3.read g1, h5.read g2)
      | (none, _) => none
  | (none, _) => none



/-- Whether the nested defaults table stored under key `env` (if any)
has duplicate-free keys; `true` when there is no nested table. -/
def envTableNodup (d : Dmap) (env : String) : Bool :=
  match alookup d env with
  | some (.vMap m) => decide (akeys m).Nodup
  | _ => true

theorem alookup_ainsert_self {α : Type} (l : List (String × α)) (k : String) (v : α) :
    alookup (ainsert l k v) k = some v := by
  induction l with
  | nil => simp [ainsert, alookup]
  | cons kv rest ih =>
      obtain ⟨k0, v0⟩ := kv
      by_cases h : k0 = k
      · simp [ainsert, h, alookup]
      · simp [ainsert, h, alookup, ih]

theorem alookup_ainsert_ne {α : Type} (l : List (String × α)) (k k' : String) (v : α)
    (h : k' ≠ k) : alookup (ainsert l k v) k' = alookup l k' := by
  induction l with
  | nil => simp [ainsert, alookup, Ne.symm h]
  | cons kv rest ih =>
      obtain ⟨k0, v0⟩ := kv
      by_cases h0 : k0 = k
      · subst h0
        simp [ainsert, alookup, Ne.symm h]
      · simp only [ainsert, if_neg h0, alookup]
        by_cases h1 : k0 = k'
        · simp [h1]
        · simp [h1, ih]

theorem alookup_eq_none {α : Type} (l : List (String × α)) (k : String)
    (h : k ∉ akeys l) : alookup l k = none := by
  induction l with
  | nil => rfl
  | cons kv rest ih =>
      simp only [akeys, List.map_cons, List.mem_cons, not_or] at h
      simp only [alookup, if_neg (fun hh : kv.1 = k => h.1 hh.symm)]
      exact ih (by simpa [akeys] using h.2)

theorem mem_of_alookup_eq_some {α : Type} (l : List (String × α)) (k : String) (v : α)
    (h : alookup l k = some v) : (k, v) ∈ l := by
  induction l with
  | nil => simp [alookup] at h
  | cons kv rest ih =>
      by_cases h0 : kv.1 = k
      · simp only [alookup, if_pos h0] at h
        obtain ⟨k0, v0⟩ := kv
        cases h0
        cases h
        simp
      · simp only [alookup, if_neg h0] at h
        exact List.mem_cons_of_mem _ (ih h)

theorem alookup_eq_some_of_mem_nodup {α : Type} (l : List (String × α)) (k : String) (v : α)
    (hnd : (akeys l).Nodup) (h : (k, v) ∈ l) : alookup l k = some v := by
  induction l with
  | nil => simp at h
  | cons kv rest ih =>
      simp only [akeys, List.map_cons, List.nodup_cons] at hnd
      rcases List.mem_cons.mp h with h1 | h1
      · cases h1
        simp [alookup]
      · have hk : kv.1 ≠ k := by
          intro he
          exact hnd.1 (he ▸ (List.mem_map.mpr ⟨(k, v), h1, rfl⟩))
        simp only [alookup, if_neg hk]
        exact ih (by simpa [akeys] using hnd.2) h1



@[simp] theorem akeys_nil {α : Type} : akeys ([] : List (String × α)) = [] := rfl

@[simp] theorem akeys_cons {α : Type} (kv : String × α) (l : List (String × α)) :
    akeys (kv :: l) = kv.1 :: akeys l := rfl

theorem mem_akeys {α : Type} (l : List (String × α)) (k : String) :
    k ∈ akeys l ↔ ∃ v, (k, v) ∈ l := by
  constructor
  · intro h
    rcases List.mem_map.mp h with ⟨kv, hm, he⟩
    exact ⟨kv.2, by cases he; exact hm⟩
  · rintro ⟨v, hv⟩
    exact List.mem_map.mpr ⟨(k, v), hv, rfl⟩

theorem akeys_ainsert {α : Type} (l : List (String × α)) (k : String) (v : α) :
    akeys (ainsert l k v) = if k ∈ akeys l then akeys l else akeys l ++ [k] := by
  induction l with
  | nil => simp [ainsert]
  | cons kv rest ih =>
      obtain ⟨k0, v0⟩ := kv
      by_cases h : k0 = k
      · subst h
        simp [ainsert]
      · simp only [ainsert, if_neg h, akeys_cons, ih, List.mem_cons]
        by_cases h2 : k ∈ akeys rest
        · simp [h2, Ne.symm h]
        · simp [h2, Ne.symm h]

theorem nodup_akeys_ainsert {α : Type} (l : List (String × α)) (k : String) (v : α)
    (h : (akeys l).Nodup) : (akeys (ainsert l k v)).Nodup := by
  rw [akeys_ainsert]
  by_cases h2 : k ∈ akeys l
  · simpa [h2] using h
  · simp only [h2, if_false]
    simp [List.nodup_append, h, List.disjoint_singleton, h2]

theorem nodup_akeys_foldl_ainsert {α : Type} (l init : List (String × α))
    (h : (akeys init).Nodup) :
    (akeys (l.foldl (fun r kv => ainsert r kv.1 kv.2) init)).Nodup := by
  induction l generalizing init with
  | nil => exact h
  | cons kv rest ih => exact ih _ (nodup_akeys_ainsert _ _ _ h)

theorem alookup_foldl_ainsert {α : Type} (l init : List (String × α)) (k : String)
    (hnd : (akeys l).Nodup) :
    alookup (l.foldl (fun r kv => ainsert r kv.1 kv.2) init) k
      = (alookup l k).or (alookup init k) := by
  induction l generalizing init with
  | nil => simp [alookup, Option.or]
  | cons kv rest ih =>
      obtain ⟨k0, v0⟩ := kv
      simp only [akeys_cons, List.nodup_cons] at hnd
      simp only [List.foldl_cons]
      rw [ih _ hnd.2]
      by_cases h : k0 = k
      · subst h
        rw [alookup_eq_none rest k0 hnd.1]
        simp [alookup, alookup_ainsert_self, Option.or]
      · rw [alookup_ainsert_ne _ _ _ _ (Ne.symm h)]
        simp [alookup, h]



theorem akeys_specBaseDefaults_subset (d : Dmap) (k : String)
    (h : k ∈ akeys (specBaseDefaults d)) : k ∈ akeys d := by
  induction d with
  | nil => simp [specBaseDefaults] at h
  | cons kv rest ih =>
      obtain ⟨k0, v0⟩ := kv
      cases v0 with
      | vStr s =>
          simp only [specBaseDefaults, List.filterMap_cons] at h ih
          rcases List.mem_cons.mp h with h1 | h1
          · simp [h1]
          · exact List.mem_cons_of_mem _ (ih h1)
      | vMap mm =>
          simp only [specBaseDefaults, List.filterMap_cons] at h ih
          exact List.mem_cons_of_mem _ (ih h)
      | vOther =>
          simp only [specBaseDefaults, List.filterMap_cons] at h ih
          exact List.mem_cons_of_mem _ (ih h)

theorem nodup_akeys_foldl_vstr (d : Dmap) (init : Smap)
    (h : (akeys init).Nodup) :
    (akeys (d.foldl
      (fun r kv => match kv.2 with | .vStr s => ainsert r kv.1 s | _ => r) init)).Nodup := by
  induction d generalizing init with
  | nil => exact h
  | cons kv rest ih =>
      obtain ⟨k0, v0⟩ := kv
      cases v0 with
      | vStr s => exact ih _ (nodup_akeys_ainsert _ _ _ h)
      | vMap mm => exact ih _ h
      | vOther => exact ih _ h

theorem alookup_foldl_vstr (d : Dmap) (init : Smap) (k : String)
    (hnd : (akeys d).Nodup) :
    alookup (d.foldl
        (fun r kv => match kv.2 with | .vStr s => ainsert r kv.1 s | _ => r) init) k
      = (alookup (specBaseDefaults d) k).or (alookup init k) := by
  induction d generalizing init with
  | nil => simp [specBaseDefaults, alookup, Option.or]
  | cons kv rest ih =>
      obtain ⟨k0, v0⟩ := kv
      simp only [akeys_cons, List.nodup_cons] at hnd
      cases v0 with
      | vStr s =>
          simp only [List.foldl_cons]
          rw [ih _ hnd.2]
          have hcons : specBaseDefaults ((k0, DVal.vStr s) :: rest)
              = (k0, s) :: specBaseDefaults rest := by
            simp [specBaseDefaults, List.filterMap_cons]
          rw [hcons]
          by_cases h : k0 = k
          · subst h
            have hnone : alookup (specBaseDefaults rest) k0 = none := by
              apply alookup_eq_none
              intro hmem
              exact hnd.1 (akeys_specBaseDefaults_subset rest k0 hmem)
            simp [alookup, hnone, alookup_ainsert_self, Option.or]
          · rw [alookup_ainsert_ne _ _ _ _ (Ne.symm h)]
            simp [alookup, h]
      | vMap mm =>
          simp only [List.foldl_cons]
          rw [ih _ hnd.2]
          simp [specBaseDefaults, List.filterMap_cons]
      | vOther =>
          simp only [List.foldl_cons]
          rw [ih _ hnd.2]
          simp [specBaseDefaults, List.filterMap_cons]




theorem alookup_extractEnvDefaults (d : Dmap) (env k : String)
    (hnd : envTableNodup d env = true) :
    alookup (extractEnvDefaults d env) k = alookup (specEnvDefaults d env) k := by
  unfold extractEnvDefaults specEnvDefaults envTableNodup at *
  cases he : alookup d env with
  | none => rfl
  | some dv =>
      cases dv with
      | vStr s => rfl
      | vOther => rfl
      | vMap m =>
          rw [he] at hnd
          simp only [decide_eq_true_eq] at hnd
          rw [alookup_foldl_vstr m [] k hnd]
          cases hx : alookup (specBaseDefaults m) k <;> simp [hx, Option.or, alookup]

theorem nodup_akeys_extractEnvDefaults (d : Dmap) (env : String) :
    (akeys (extractEnvDefaults d env)).Nodup := by
  unfold extractEnvDefaults
  cases alookup d env with
  | none => simp
  | some dv =>
      cases dv with
      | vStr s => simp
      | vOther => simp
      | vMap m => exact nodup_akeys_foldl_vstr m [] (by simp)

theorem alookup_resolveDefaults (d : Dmap) (env k : String)
    (hnd : (akeys d).Nodup) (hnd2 : envTableNodup d env = true) :
    alookup (resolveDefaults d env) k
      = (alookup (specEnvDefaults d env) k).or (alookup (specBaseDefaults d) k) := by
  show alookup (List.foldl (fun result kv => ainsert result kv.1 kv.2)
      (List.foldl
        (fun result kv =>
          match kv.2 with
          | DVal.vStr s => ainsert result kv.1 s
          | _ => result)
        [] d)
      (extractEnvDefaults d env)) k = _
  rw [alookup_foldl_ainsert _ _ k (nodup_akeys_extractEnvDefaults d env)]
  rw [alookup_extractEnvDefaults d env k hnd2]
  rw [alookup_foldl_vstr d [] k hnd]
  cases hx : alookup (specBaseDefaults d) k <;>
    cases hy : alookup (specEnvDefaults d env) k <;>
      simp [hx, hy, Option.or, alookup]



theorem nodup_akeys_resolveDefaults (d : Dmap) (env : String) :
    (akeys (resolveDefaults d env)).Nodup := by
  show (akeys (List.foldl (fun result kv => ainsert result kv.1 kv.2)
      (List.foldl
        (fun result kv =>
          match kv.2 with
          | DVal.vStr s => ainsert result kv.1 s
          | _ => result)
        [] d)
      (extractEnvDefaults d env))).Nodup
  exact nodup_akeys_foldl_ainsert _ _ (nodup_akeys_foldl_vstr _ _ (by simp))

theorem alookup_copyStringMap (src : Smap) (k : String) (hnd : (akeys src).Nodup) :
    alookup (copyStringMap src) k = alookup src k := by
  unfold copyStringMap
  rw [alookup_foldl_ainsert _ _ k hnd]
  cases hx : alookup src k <;> simp [hx, Option.or, alookup]

theorem alookup_mergeWorkspaceDefaults_none (base : Smap) (env k : String)
    (hndb : (akeys base).Nodup) :
    alookup (mergeWorkspaceDefaults base none env) k = alookup base k :=
  alookup_copyStringMap base k hndb

theorem alookup_mergeWorkspaceDefaults_some (base : Smap) (w : WorkspaceConfig)
    (env k : String) (hndb : (akeys base).Nodup)
    (hw1 : (akeys w.defaults).Nodup) (hw2 : envTableNodup w.defaults env = true) :
    alookup (mergeWorkspaceDefaults base (some w) env) k
      = ((alookup (specEnvDefaults w.defaults env) k).or
          (alookup (specBaseDefaults w.defaults) k)).or (alookup base k) := by
  show alookup (List.foldl (fun result kv => ainsert result kv.1 kv.2)
      (copyStringMap base) (resolveDefaults w.defaults env)) k = _
  rw [alookup_foldl_ainsert _ _ k (nodup_akeys_resolveDefaults _ _)]
  rw [alookup_resolveDefaults _ _ _ hw1 hw2]
  rw [alookup_copyStringMap base k hndb]



/-- Claim C4 (confirmed): for every root config, optional workspace
config and successful merge, the defaults map of the result looks up
exactly as the spec's overlay chain — root base defaults, then root
env-specific, then workspace base, then workspace env-specific, later
entries winning per key (duplicate-free tables, as Go maps are). -/
theorem vx_C4 (root : RootConfig) (ws : Option WorkspaceConfig) (env k : String)
    (m : MergedConfig)
    (hm : Merge (some root) ws env = .ok m)
    (hnd1 : (akeys root.defaults).Nodup)
    (hnd2 : envTableNodup root.defaults m.environment = true)
    (hndw : ∀ w, ws = some w →
      (akeys w.defaults).Nodup ∧ envTableNodup w.defaults m.environment = true) :
    alookup m.defaults k = specDefaultsOverlay root ws m.environment k := by
  simp only [Merge] at hm
  split at hm
  all_goals split at hm
  any_goals exact Except.noConfusion hm
  all_goals
    rw [Except.ok.injEq] at hm
    subst hm
    cases ws with
    | none =>
        rw [alookup_mergeWorkspaceDefaults_none _ _ _ (nodup_akeys_resolveDefaults _ _)]
        rw [alookup_resolveDefaults _ _ _ hnd1 hnd2]
        rfl
    | some w =>
        obtain ⟨hw1, hw2⟩ := hndw w rfl
        rw [alookup_mergeWorkspaceDefaults_some _ _ _ _
          (nodup_akeys_resolveDefaults _ _) hw1 hw2]
        rw [alookup_resolveDefaults _ _ _ hnd1 hnd2]
        rfl



/-- Claim C7 (confirmed): `Merge` fails on a nil root; an empty `env`
is substituted by the configured default before the membership check;
a (possibly substituted) env outside `available` yields the
unknown-environment error and no merged config; a successful merge
carries a member environment. -/
theorem vx_C7 (root : RootConfig) (ws : Option WorkspaceConfig) (env : String) :
    Merge none ws env = .error "root config is required"
    ∧ (contains root.environments.available
          (if env = "" then root.environments.default else env) = false →
        Merge (some root) ws env
          = .error ("environment \""
              ++ (if env = "" then root.environments.default else env)
              ++ "\" is not in available environments"))
    ∧ (∀ m, Merge (some root) ws env = .ok m →
        m.environment = (if env = "" then root.environments.default else env)
        ∧ contains root.environments.available m.environment = true) := by
  refine ⟨rfl, ?_, ?_⟩
  · intro hc
    by_cases he : env = "" <;> simp [he] at hc <;> simp [Merge, he, hc]
  · intro m hm
    simp only [Merge] at hm
    split at hm
    all_goals split at hm
    any_goals exact Except.noConfusion hm
    all_goals rw [Except.ok.injEq] at hm
    all_goals subst hm
    all_goals constructor <;> simp_all



/-- Claim C3 (confirmed): the code's renewal-decision function agrees
with the spec's truth table on its five cases.  The function takes only
`ttl` — `creation_ttl` is not an input — so the table's "any creation"
columns hold trivially. -/
theorem vx_C3 :
    needsRenewal 7200 = false ∧ needsRenewal 300 = true ∧ needsRenewal 0 = false
    ∧ needsRenewal 100 = true ∧ needsRenewal (-1) = false := by decide

/-- Claim C1, counterexample: with `ttl = 2500` and
`creation_ttl = 10000` the spec's rule says renew (2500 < 5000), but
the code's `needsRenewal` returns false, and likewise for `ttl = 5000`
with unknown `creation_ttl`; `RenewOnce` therefore returns without
renewing. -/
theorem vx_C1_cex :
    needsRenewalSpec 2500 10000 = true ∧ needsRenewal 2500 = false
    ∧ needsRenewalSpec 5000 0 = true ∧ needsRenewal 5000 = false
    ∧ RenewOnce (.ok "tok") (.ok ⟨2500, some "2027-01-01T00:00:00Z", true⟩)
        (.ok ⟨"s.new"⟩) = .noRenewal := by decide

/-- Claim C1 (corrected): for every lookup result reaching the
renewal decision in `RenewOnce` (token read and lookup succeeded,
token renewable), the renewer proceeds to renew exactly when
`0 < ttl < 1800`; `creation_ttl` plays no role.  In particular with
`ttl = 2500` (any `creation_ttl`) it does not renew. -/
theorem vx_C1_amended (tok : String) (d : LookupData) (renew : Except String RenewData)
    (hren : d.renewable = true) :
    RenewOnce (.ok tok) (.ok d) renew ≠ .noRenewal ↔ (0 < d.ttl ∧ d.ttl < 1800) := by
  constructor
  · intro hne
    by_contra hc
    have hfalse : needsRenewal d.ttl = false := by
      simp only [needsRenewal]
      simp only [not_and_or] at hc
      rcases hc with h | h <;> simp [h]
    exact hne (by simp [RenewOnce, hren, hfalse])
  · intro hpos
    have htrue : needsRenewal d.ttl = true := by
      simp [needsRenewal, hpos.1, hpos.2]
    simp only [RenewOnce, hren, htrue]
    cases renew with
    | error e => simp
    | ok rd => by_cases he : rd.clientToken = "" <;> simp [he]

/-- Claim C9 (confirmed): `ExitCode nil = 0`; for a process-exit
error (such as the child of `sh -c 'exit 42'` run through `Run`)
`ExitCode` returns the child's code; any other error value yields 1. -/
theorem vx_C9 :
    ExitCode none = 0
    ∧ (∀ code : Int, ExitCode (some (.exitError code)) = code)
    ∧ Run ["sh", "-c", "exit 42"] none (some (.exitError 42)) = some (.exitError 42)
    ∧ ExitCode (Run ["sh", "-c", "exit 42"] none (some (.exitError 42))) = 42
    ∧ (∀ msg : String, ExitCode (some (.otherError msg)) = 1) :=
  ⟨rfl, fun _ => rfl, rfl, rfl, fun _ => rfl⟩



theorem splitAtLastSlash_append (cs ps ks : List Char)
    (h : splitAtLastSlash cs = some (ps, ks)) : cs = ps ++ '/' :: ks := by
  induction cs generalizing ps ks with
  | nil => simp [splitAtLastSlash] at h
  | cons c rest ih =>
      simp only [splitAtLastSlash] at h
      cases hrec : splitAtLastSlash rest with
      | some pk =>
          rw [hrec] at h
          obtain ⟨p0, k0⟩ := pk
          simp only [Option.some.injEq, Prod.mk.injEq] at h
          obtain ⟨h1, h2⟩ := h
          subst h1
          subst h2
          simp [ih p0 k0 hrec]
      | none =>
          rw [hrec] at h
          by_cases hc : c = '/'
          · simp only [if_pos hc, Option.some.injEq, Prod.mk.injEq] at h
            obtain ⟨h1, h2⟩ := h
            subst h1
            subst h2
            simp [hc]
          · simp [if_neg hc] at h

theorem string_data_append (a b : String) : (a ++ b).data = a.data ++ b.data := rfl

theorem splitPath_concat (s p k : String) (h : splitPath s = (p, k))
    (hne : ¬ (p = "" ∧ k = "")) : p ++ "/" ++ k = s := by
  unfold splitPath at h
  cases hsp : splitAtLastSlash s.toList with
  | none =>
      rw [hsp] at h
      simp only [Prod.mk.injEq] at h
      exact absurd ⟨h.1.symm, h.2.symm⟩ hne
  | some pk =>
      rw [hsp] at h
      obtain ⟨ps, ks⟩ := pk
      simp only [Prod.mk.injEq] at h
      obtain ⟨h1, h2⟩ := h
      subst h1
      subst h2
      have hs := splitAtLastSlash_append _ _ _ hsp
      apply String.ext
      rw [string_data_append, string_data_append]
      change (ps ++ "/".data ++ ks) = s.data
      rw [show ("/" : String).data = ['/'] from rfl]
      rw [show s.data = s.toList from rfl, hs]
      simp



theorem groupStep_skip (env : String) (acc : List (String × List SecretMapping))
    (kv : String × String)
    (hbad : (splitPath (Interpolate kv.2 env)).1 = ""
      ∨ (splitPath (Interpolate kv.2 env)).2 = "") :
    groupStep env acc kv = acc := by
  simp [groupStep, hbad]

theorem groupStep_keep (env : String) (acc : List (String × List SecretMapping))
    (kv : String × String)
    (hbad : ¬ ((splitPath (Interpolate kv.2 env)).1 = ""
      ∨ (splitPath (Interpolate kv.2 env)).2 = "")) :
    groupStep env acc kv
      = ainsert acc (splitPath (Interpolate kv.2 env)).1
          ((alookup acc (splitPath (Interpolate kv.2 env)).1).getD []
            ++ [⟨kv.1, (splitPath (Interpolate kv.2 env)).2⟩]) := by
  simp [groupStep, hbad]

theorem groupSelect_none (env p : String) (kv : String × String)
    (h : ¬ ((splitPath (Interpolate kv.2 env)).1 = p
      ∧ ¬ ((splitPath (Interpolate kv.2 env)).1 = ""
          ∨ (splitPath (Interpolate kv.2 env)).2 = ""))) :
    groupSelect env p kv = none := by
  simp only [groupSelect]
  rw [if_neg h]

theorem groupSelect_some (env p : String) (kv : String × String)
    (h : (splitPath (Interpolate kv.2 env)).1 = p
      ∧ ¬ ((splitPath (Interpolate kv.2 env)).1 = ""
          ∨ (splitPath (Interpolate kv.2 env)).2 = "")) :
    groupSelect env p kv = some ⟨kv.1, (splitPath (Interpolate kv.2 env)).2⟩ := by
  simp only [groupSelect]
  rw [if_pos h]

theorem alookup_groupFold (secrets : Smap) (env p : String)
    (acc : List (String × List SecretMapping)) :
    alookup (secrets.foldl (groupStep env) acc) p
      = if groupOf secrets env p = [] then alookup acc p
        else some ((alookup acc p).getD [] ++ groupOf secrets env p) := by
  induction secrets generalizing acc with
  | nil => simp [groupOf]
  | cons kv rest ih =>
      rw [List.foldl_cons]
      by_cases hbad : (splitPath (Interpolate kv.2 env)).1 = ""
          ∨ (splitPath (Interpolate kv.2 env)).2 = ""
      · rw [groupStep_skip env acc kv hbad]
        have hsel : groupSelect env p kv = none :=
          groupSelect_none env p kv (fun hc => hc.2 hbad)
        have hgc : groupOf (kv :: rest) env p = groupOf rest env p := by
          simp [groupOf, List.filterMap_cons, hsel]
        rw [hgc]
        exact ih acc
      · rw [groupStep_keep env acc kv hbad]
        by_cases hp : (splitPath (Interpolate kv.2 env)).1 = p
        · have hsel : groupSelect env p kv
              = some ⟨kv.1, (splitPath (Interpolate kv.2 env)).2⟩ :=
            groupSelect_some env p kv ⟨hp, hbad⟩
          have hgc : groupOf (kv :: rest) env p
              = ⟨kv.1, (splitPath (Interpolate kv.2 env)).2⟩ :: groupOf rest env p := by
            simp [groupOf, List.filterMap_cons, hsel]
          rw [hgc, ih, hp, alookup_ainsert_self]
          by_cases hrest : groupOf rest env p = [] <;> simp [hrest]
        · have hsel : groupSelect env p kv = none :=
            groupSelect_none env p kv (fun hc => hp hc.1)
          have hgc : groupOf (kv :: rest) env p = groupOf rest env p := by
            simp [groupOf, List.filterMap_cons, hsel]
          rw [hgc, ih, alookup_ainsert_ne _ _ _ _ (fun he => hp he.symm)]

theorem alookup_GroupByPath (secrets : Smap) (env p : String) :
    alookup (GroupByPath secrets env) p
      = if groupOf secrets env p = [] then none
        else some (groupOf secrets env p) := by
  unfold GroupByPath
  rw [alookup_groupFold]
  by_cases h : groupOf secrets env p = [] <;> simp [h, alookup]

theorem nodup_akeys_GroupByPath (secrets : Smap) (env : String) :
    (akeys (GroupByPath secrets env)).Nodup := by
  unfold GroupByPath
  generalize hacc : ([] : List (String × List SecretMapping)) = acc
  have hnd : (akeys acc).Nodup := by
    subst hacc
    simp
  clear hacc
  induction secrets generalizing acc with
  | nil => exact hnd
  | cons kv rest ih =>
      rw [List.foldl_cons]
      by_cases hbad : (splitPath (Interpolate kv.2 env)).1 = ""
          ∨ (splitPath (Interpolate kv.2 env)).2 = ""
      · rw [groupStep_skip env acc kv hbad]
        exact ih _ hnd
      · rw [groupStep_keep env acc kv hbad]
        exact ih _ (nodup_akeys_ainsert _ _ _ hnd)



theorem mem_groupedEnvVars (groups : List (String × List SecretMapping)) (k : String) :
    k ∈ groupedEnvVars groups
      ↔ ∃ p ms, (p, ms) ∈ groups ∧ ∃ sm, sm ∈ ms ∧ sm.envVar = k := by
  induction groups with
  | nil => simp [groupedEnvVars]
  | cons g rest ih =>
      have hco : groupedEnvVars (g :: rest)
          = g.2.map (·.envVar) ++ groupedEnvVars rest := rfl
      rw [hco]
      simp only [List.mem_append, List.mem_map, ih, List.mem_cons]
      constructor
      · rintro (⟨sm, hsm, rfl⟩ | ⟨p, ms, hmem, sm, hsm, rfl⟩)
        · exact ⟨g.1, g.2, Or.inl (Prod.mk.eta.symm ▸ rfl), sm, hsm, rfl⟩
        · exact ⟨p, ms, Or.inr hmem, sm, hsm, rfl⟩
      · rintro ⟨p, ms, heq | hmem, sm, hsm, rfl⟩
        · left
          refine ⟨sm, ?_, rfl⟩
          rw [show g = (p, ms) from heq ▸ rfl] 
          exact hsm
        · exact Or.inr ⟨p, ms, hmem, sm, hsm, rfl⟩

theorem mem_groupOf (secrets : Smap) (env p : String) (sm : SecretMapping) :
    sm ∈ groupOf secrets env p
      ↔ ∃ kv, kv ∈ secrets ∧ groupSelect env p kv = some sm := by
  simp [groupOf, List.mem_filterMap]

theorem groupSelect_eq_some_iff (env p : String) (kv : String × String)
    (sm : SecretMapping) :
    groupSelect env p kv = some sm
      ↔ (splitPath (Interpolate kv.2 env)).1 = p
        ∧ ¬ ((splitPath (Interpolate kv.2 env)).1 = ""
            ∨ (splitPath (Interpolate kv.2 env)).2 = "")
        ∧ sm = ⟨kv.1, (splitPath (Interpolate kv.2 env)).2⟩ := by
  by_cases h : (splitPath (Interpolate kv.2 env)).1 = p
      ∧ ¬ ((splitPath (Interpolate kv.2 env)).1 = ""
          ∨ (splitPath (Interpolate kv.2 env)).2 = "")
  · rw [groupSelect_some env p kv h]
    simp only [Option.some.injEq]
    constructor
    · intro he
      exact ⟨h.1, h.2, he.symm⟩
    · rintro ⟨_, _, rfl⟩
      rfl
  · rw [groupSelect_none env p kv h]
    constructor
    · intro he
      exact Option.noConfusion he
    · rintro ⟨h1, h2, _⟩
      exact absurd ⟨h1, h2⟩ h



theorem mem_groupedEnvVars_iff (secrets : Smap) (env k : String)
    (hnd : (akeys secrets).Nodup) :
    k ∈ groupedEnvVars (GroupByPath secrets env)
      ↔ ∃ v, alookup secrets k = some v
          ∧ ¬ ((splitPath (Interpolate v env)).1 = ""
              ∨ (splitPath (Interpolate v env)).2 = "") := by
  constructor
  · intro hk
    rcases (mem_groupedEnvVars _ _).mp hk with ⟨p, ms, hmem, sm, hsm, hvar⟩
    have hl := alookup_eq_some_of_mem_nodup _ _ _ (nodup_akeys_GroupByPath secrets env) hmem
    rw [alookup_GroupByPath] at hl
    by_cases h0 : groupOf secrets env p = []
    · rw [if_pos h0] at hl
      exact Option.noConfusion hl
    · rw [if_neg h0] at hl
      rw [Option.some.injEq] at hl
      subst hl
      rcases (mem_groupOf _ _ _ _).mp hsm with ⟨kv, hkv, hsel⟩
      rcases (groupSelect_eq_some_iff _ _ _ _).mp hsel with ⟨hp, hgood, hsm_eq⟩
      subst hsm_eq
      simp only at hvar
      subst hvar
      refine ⟨kv.2, ?_, hgood⟩
      exact alookup_eq_some_of_mem_nodup _ _ _ hnd (by
        rw [show (kv.1, kv.2) = kv from rfl]
        exact hkv)
  · rintro ⟨v, hlk, hgood⟩
    have hmem' : (k, v) ∈ secrets := mem_of_alookup_eq_some _ _ _ hlk
    have hsel : groupSelect env (splitPath (Interpolate v env)).1 (k, v)
        = some ⟨k, (splitPath (Interpolate v env)).2⟩ :=
      groupSelect_some _ _ _ ⟨rfl, hgood⟩
    have hin : (⟨k, (splitPath (Interpolate v env)).2⟩ : SecretMapping)
        ∈ groupOf secrets env (splitPath (Interpolate v env)).1 :=
      (mem_groupOf _ _ _ _).mpr ⟨(k, v), hmem', hsel⟩
    have hgO : groupOf secrets env (splitPath (Interpolate v env)).1 ≠ [] := by
      intro h0
      rw [h0] at hin
      exact absurd hin (List.not_mem_nil _)
    have hlg : alookup (GroupByPath secrets env) (splitPath (Interpolate v env)).1
        = some (groupOf secrets env (splitPath (Interpolate v env)).1) := by
      rw [alookup_GroupByPath, if_neg hgO]
    have hmemg := mem_of_alookup_eq_some _ _ _ hlg
    exact (mem_groupedEnvVars _ _).mpr
      ⟨_, _, hmemg, _, hin, rfl⟩

theorem groupByPath_pairs (secrets : Smap) (env : String)
    (hnd : (akeys secrets).Nodup) (p : String) (ms : List SecretMapping)
    (sm : SecretMapping) (hmem : (p, ms) ∈ GroupByPath secrets env)
    (hsm : sm ∈ ms) :
    ∃ v, alookup secrets sm.envVar = some v
      ∧ splitPath (Interpolate v env) = (p, sm.key)
      ∧ p ++ "/" ++ sm.key = Interpolate v env := by
  have hl := alookup_eq_some_of_mem_nodup _ _ _ (nodup_akeys_GroupByPath secrets env) hmem
  rw [alookup_GroupByPath] at hl
  by_cases h0 : groupOf secrets env p = []
  · rw [if_pos h0] at hl
    exact Option.noConfusion hl
  · rw [if_neg h0] at hl
    rw [Option.some.injEq] at hl
    subst hl
    rcases (mem_groupOf _ _ _ _).mp hsm with ⟨kv, hkv, hsel⟩
    rcases (groupSelect_eq_some_iff _ _ _ _).mp hsel with ⟨hp, hgood, hsm_eq⟩
    subst hsm_eq
    refine ⟨kv.2, ?_, ?_, ?_⟩
    · exact alookup_eq_some_of_mem_nodup _ _ _ hnd (by
        rw [show (kv.1, kv.2) = kv from rfl]
        exact hkv)
    · exact Prod.ext hp rfl
    · apply splitPath_concat _ _ _ (Prod.ext hp rfl)
      intro hc
      exact hgood (Or.inl (hp ▸ hc.1))



/-- Claim C2 (corrected): for every secrets map (with duplicate-free
keys, as a Go map has) and env, the union of env-var names over all
groups equals the set of keys whose interpolated path splits at its
last `/` into a non-empty vault path and a non-empty key — not merely
"contains a `/`" — and every produced `(env_var, key)` pair under a
group's `vault_path` satisfies
`vault_path ++ "/" ++ key = Interpolate(secrets[env_var], env)`. -/
theorem vx_C2_amended (secrets : Smap) (env k : String)
    (hnd : (akeys secrets).Nodup) :
    (k ∈ groupedEnvVars (GroupByPath secrets env)
      ↔ ∃ v, alookup secrets k = some v
          ∧ ¬ ((splitPath (Interpolate v env)).1 = ""
              ∨ (splitPath (Interpolate v env)).2 = ""))
    ∧ (∀ p ms sm, (p, ms) ∈ GroupByPath secrets env → sm ∈ ms →
        ∃ v, alookup secrets sm.envVar = some v
          ∧ splitPath (Interpolate v env) = (p, sm.key)
          ∧ p ++ "/" ++ sm.key = Interpolate v env) :=
  ⟨mem_groupedEnvVars_iff secrets env k hnd,
   fun p ms sm hmem hsm => groupByPath_pairs secrets env hnd p ms sm hmem hsm⟩

/-- Claim C2, counterexample: the template `"/key"` interpolates to a
path containing `/`, yet its env var appears in no group, so the
claimed set equality fails as stated. -/
theorem vx_C2_cex :
    '/' ∈ (Interpolate "/key" "dev").toList
    ∧ "X" ∉ groupedEnvVars (GroupByPath [("X", "/key")] "dev") := by decide

/-- Witness for C2's amended theorem on a two-entry secrets map. -/
theorem vx_C2_witness :
    ("DATABASE_URL" ∈ groupedEnvVars
        (GroupByPath [("DATABASE_URL", "${env}/db/url"), ("PLAIN", "nokey")] "dev")
      ↔ ∃ v, alookup [("DATABASE_URL", "${env}/db/url"), ("PLAIN", "nokey")]
            "DATABASE_URL" = some v
          ∧ ¬ ((splitPath (Interpolate v "dev")).1 = ""
              ∨ (splitPath (Interpolate v "dev")).2 = ""))
    ∧ (∀ p ms sm,
        (p, ms) ∈ GroupByPath [("DATABASE_URL", "${env}/db/url"), ("PLAIN", "nokey")] "dev" →
        sm ∈ ms →
        ∃ v, alookup [("DATABASE_URL", "${env}/db/url"), ("PLAIN", "nokey")]
              sm.envVar = some v
          ∧ splitPath (Interpolate v "dev") = (p, sm.key)
          ∧ p ++ "/" ++ sm.key = Interpolate v "dev") :=
  vx_C2_amended [("DATABASE_URL", "${env}/db/url"), ("PLAIN", "nokey")] "dev"
    "DATABASE_URL" (by decide)

/-- Claim C10 (confirmed): an entry whose interpolated path splits at
the last `/` into an empty vault path (leading slash) or an empty key
(trailing slash) appears in no group, even when the path contains a
`/`. -/
theorem vx_C10 (secrets : Smap) (env envVar tmpl : String)
    (hnd : (akeys secrets).Nodup)
    (hmem : (envVar, tmpl) ∈ secrets)
    (hbad : (splitPath (Interpolate tmpl env)).1 = ""
      ∨ (splitPath (Interpolate tmpl env)).2 = "") :
    envVar ∉ groupedEnvVars (GroupByPath secrets env) := by
  intro hk
  rcases (mem_groupedEnvVars_iff secrets env envVar hnd).mp hk with ⟨v, hlk, hgood⟩
  have hls : alookup secrets envVar = some tmpl :=
    alookup_eq_some_of_mem_nodup _ _ _ hnd hmem
  rw [hls, Option.some.injEq] at hlk
  subst hlk
  exact hgood hbad

/-- Witness for C10: a trailing-slash template is dropped. -/
theorem vx_C10_witness :
    "TRAILING" ∉ groupedEnvVars (GroupByPath [("TRAILING", "${env}/")] "dev") :=
  vx_C10 [("TRAILING", "${env}/")] "dev" "TRAILING" "${env}/"
    (by decide) (by decide) (by decide)



theorem readWithCache_none (r : Resolver) (h : Heap) (now : Int) (path : String) :
    r.readWithCache none h now path = (r.readKV (r.fullPath path), none, h) := by
  unfold Resolver.readWithCache
  cases hx : r.readKV (r.fullPath path) <;> simp [hx]

theorem fetchAll_none_error (r : Resolver) (h : Heap) (now : Int)
    (paths : List String) (p e : String) (hp : p ∈ paths)
    (he : r.readKV (r.fullPath p) = .error e) :
    ∃ q e2, q ∈ paths ∧ r.readKV (r.fullPath q) = .error e2
      ∧ (r.fetchAll none h now paths).1
          = .error ("read vault path \"" ++ q ++ "\": " ++ e2) := by
  induction paths generalizing h with
  | nil => cases hp
  | cons q0 rest ih =>
      cases hx : r.readKV (r.fullPath q0) with
      | error e0 =>
          refine ⟨q0, e0, List.mem_cons_self _ _, hx, ?_⟩
          simp only [Resolver.fetchAll, readWithCache_none, hx]
      | ok data =>
          have hp' : p ∈ rest := by
            rcases List.mem_cons.mp hp with h1 | h1
            · subst h1
              rw [hx] at he
              exact absurd he (by simp)
            · exact h1
          rcases ih h hp' with ⟨q, e2, hq, he2, hres⟩
          refine ⟨q, e2, List.mem_cons_of_mem _ hq, he2, ?_⟩
          simp only [Resolver.fetchAll, readWithCache_none, hx, hres]

/-- Claim C5 (confirmed): if the reader fails on any grouped path,
`Resolve` returns an error wrapping a failed path (and, the result
being an `Except.error`, no partial env-var mapping is produced). -/
theorem vx_C5 (reader : String → Except String Smap) (basePath : String)
    (maxc : Nat) (h : Heap) (now : Int) (secrets : Smap) (env p e : String)
    (hp : p ∈ akeys (GroupByPath secrets env))
    (he : reader (Resolver.fullPath ⟨reader, basePath, maxc⟩ p) = .error e) :
    ∃ q e2, q ∈ akeys (GroupByPath secrets env)
      ∧ reader (Resolver.fullPath ⟨reader, basePath, maxc⟩ q) = .error e2
      ∧ (Resolver.Resolve ⟨reader, basePath, maxc⟩ none h now secrets env).1
          = .error ("resolve secrets: "
              ++ ("read vault path \"" ++ q ++ "\": " ++ e2)) := by
  have hne : ¬ secrets.length = 0 := by
    intro h0
    rw [List.length_eq_zero] at h0
    subst h0
    simp [GroupByPath, akeys] at hp
  rcases fetchAll_none_error ⟨reader, basePath, maxc⟩ h now
      (akeys (GroupByPath secrets env)) p e hp he with ⟨q, e2, hq, he2, hres⟩
  refine ⟨q, e2, hq, he2, ?_⟩
  unfold Resolver.Resolve
  rw [if_neg hne]
  simp only [hres]

/-- Witness for C5 with a reader that fails on `secret/dev/db`. -/
theorem vx_C5_witness :
    ∃ q e2, q ∈ akeys (GroupByPath [("URL", "${env}/db/url")] "dev")
      ∧ (fun path => if path = "secret/dev/db" then Except.error "boom"
          else Except.ok ([] : Smap))
          (Resolver.fullPath
            ⟨(fun path => if path = "secret/dev/db" then Except.error "boom"
                else Except.ok ([] : Smap)), "secret", 10⟩ q) = .error e2
      ∧ (Resolver.Resolve
            ⟨(fun path => if path = "secret/dev/db" then Except.error "boom"
                else Except.ok ([] : Smap)), "secret", 10⟩
            none ⟨0, fun _ => []⟩ 0 [("URL", "${env}/db/url")] "dev").1
          = .error ("resolve secrets: "
              ++ ("read vault path \"" ++ q ++ "\": " ++ e2)) :=
  vx_C5 (fun path => if path = "secret/dev/db" then Except.error "boom"
      else Except.ok ([] : Smap)) "secret" 10 ⟨0, fun _ => []⟩ 0
    [("URL", "${env}/db/url")] "dev" "dev/db" "boom" (by decide) (by rfl)



theorem Heap.read_alloc_self (h : Heap) (m : Smap) :
    ((h.alloc m).2).read h.next = m := by
  simp [Heap.alloc, Heap.read]

theorem Heap.read_alloc_lt (h : Heap) (m : Smap) (r : Nat) (hr : r < h.next) :
    ((h.alloc m).2).read r = h.read r := by
  simp only [Heap.alloc, Heap.read]
  rw [if_neg (by omega)]

theorem Heap.next_alloc (h : Heap) (m : Smap) : ((h.alloc m).2).next = h.next + 1 := rfl

theorem Heap.read_write_ne (h : Heap) (r : Nat) (k v : String) (r2 : Nat)
    (hne : r2 ≠ r) : (h.write r k v).read r2 = h.read r2 := by
  simp only [Heap.write, Heap.read]
  rw [if_neg hne]

theorem Heap.next_write (h : Heap) (r : Nat) (k v : String) :
    (h.write r k v).next = h.next := rfl

/-- Claim C6 (confirmed): in the Set-mutate-Get-mutate-Get scenario,
both gets return the mapping exactly as it was when `Set` stored it:
mutating the supplied map after `Set`, or the map a `Get` returned,
never changes what a later `Get` returns. -/
theorem vx_C6 (c : Cache) (h : Heap) (now now2 now3 : Int) (p : String)
    (m : Nat) (k1 v1 k2 v2 : String)
    (hm : m < h.next)
    (h2le : ¬ now2 > now + c.ttl) (h3le : ¬ now3 > now + c.ttl) :
    cacheScenario c h now now2 now3 p m k1 v1 k2 v2
      = some (h.read m, h.read m) := by
  have hne_m : h.next ≠ m := Nat.ne_of_gt hm
  have hr2 : (((h.alloc (h.read m)).2).write m k1 v1).read h.next = h.read m := by
    rw [Heap.read_write_ne _ _ _ _ _ hne_m, Heap.read_alloc_self]
  have hget1 : Cache.get ⟨c.ttl, ainsert c.entries p ⟨h.next, now + c.ttl⟩⟩
      (((h.alloc (h.read m)).2).write m k1 v1) now2 p
      = (some (((h.alloc (h.read m)).2).write m k1 v1).next,
         ((((h.alloc (h.read m)).2).write m k1 v1).alloc (h.read m)).2) := by
    unfold Cache.get
    rw [alookup_ainsert_self]
    dsimp only
    rw [if_neg h2le]
    unfold copyMap
    rw [hr2]
    rfl
  have hnext2 : (((h.alloc (h.read m)).2).write m k1 v1).next = h.next + 1 := rfl
  have hr4 : ((((((h.alloc (h.read m)).2).write m k1 v1).alloc (h.read m)).2).write
        (((h.alloc (h.read m)).2).write m k1 v1).next k2 v2).read h.next = h.read m := by
    rw [Heap.read_write_ne _ _ _ _ _ (by rw [hnext2]; omega)]
    rw [Heap.read_alloc_lt _ _ _ (by rw [hnext2]; omega)]
    exact hr2
  have hget2 : Cache.get ⟨c.ttl, ainsert c.entries p ⟨h.next, now + c.ttl⟩⟩
      ((((((h.alloc (h.read m)).2).write m k1 v1).alloc (h.read m)).2).write
        (((h.alloc (h.read m)).2).write m k1 v1).next k2 v2) now3 p
      = (some ((((((h.alloc (h.read m)).2).write m k1 v1).alloc (h.read m)).2).write
            (((h.alloc (h.read m)).2).write m k1 v1).next k2 v2).next,
         (((((((h.alloc (h.read m)).2).write m k1 v1).alloc (h.read m)).2).write
            (((h.alloc (h.read m)).2).write m k1 v1).next k2 v2).alloc (h.read m)).2) := by
    unfold Cache.get
    rw [alookup_ainsert_self]
    dsimp only
    rw [if_neg h3le]
    unfold copyMap
    rw [hr4]
    rfl
  show (match Cache.get ⟨c.ttl, ainsert c.entries p ⟨h.next, now + c.ttl⟩⟩
          (((h.alloc (h.read m)).2).write m k1 v1) now2 p with
    | (some g1, h3) =>
        match Cache.get ⟨c.ttl, ainsert c.entries p ⟨h.next, now + c.ttl⟩⟩
            (h3.write g1 k2 v2) now3 p with
        | (some g2, h5) => some (h3.read g1, h5.read g2)
        | (none, _) => none
    | (none, _) => none) = some (h.read m, h.read m)
  rw [hget1]
  dsimp only
  rw [hget2]
  dsimp only
  rw [Heap.read_alloc_self, Heap.read_alloc_self]



theorem MergeH_read_lt (h : Heap) (root : Option RootConfigRef)
    (ws : Option WorkspaceConfigRef) (env : String) (r : Nat) (hr : r < h.next) :
    ((MergeH h root ws env).2).read r = h.read r := by
  unfold MergeH
  split
  · rfl
  · exact Heap.read_alloc_lt _ _ _ hr

theorem MergeH_idem (h h1 : Heap) (root : RootConfigRef)
    (ws : Option WorkspaceConfigRef) (env : String)
    (hd1 : h1.read root.secrets = h.read root.secrets)
    (hd2 : ∀ w, ws = some w → h1.read w.secrets = h.read w.secrets) :
    mergedAgree (MergeH h (some root) ws env).2 (MergeH h1 (some root) ws env).2
      (MergeH h (some root) ws env).1 (MergeH h1 (some root) ws env).1 := by
  have hder : Merge (Option.map (fun r => RootConfigRef.deref h1 r) (some root))
      (Option.map (fun w => WorkspaceConfigRef.deref h1 w) ws) env
      = Merge (Option.map (fun r => RootConfigRef.deref h r) (some root))
        (Option.map (fun w => WorkspaceConfigRef.deref h w) ws) env := by
    have e1 : RootConfigRef.deref h1 root = RootConfigRef.deref h root := by
      unfold RootConfigRef.deref
      rw [hd1]
    have e2 : Option.map (fun w => WorkspaceConfigRef.deref h1 w) ws
        = Option.map (fun w => WorkspaceConfigRef.deref h w) ws := by
      cases ws with
      | none => rfl
      | some w =>
          have := hd2 w rfl
          simp only [Option.map_some']
          unfold WorkspaceConfigRef.deref
          rw [this]
    simp only [Option.map_some', e1, e2]
  unfold MergeH
  simp only [Option.map_some'] at hder ⊢
  rw [hder]
  split
  · exact rfl
  · next m heq =>
      refine ⟨rfl, rfl, ?_, rfl⟩
      show ((h.alloc m.secrets).2).read (h.alloc m.secrets).1
        = ((h1.alloc m.secrets).2).read (h1.alloc m.secrets).1
      rw [show (h.alloc m.secrets).1 = h.next from rfl]
      rw [show (h1.alloc m.secrets).1 = h1.next from rfl]
      rw [Heap.read_alloc_self, Heap.read_alloc_self]

/-- Claim C8 (confirmed): `Merge` leaves its inputs' containers
unchanged (the two secrets maps on the heap; defaults tables and the
environments list are never written by the merge source), and running
it twice yields agreeing results. -/
theorem vx_C8 (h : Heap) (root : RootConfigRef) (ws : Option WorkspaceConfigRef)
    (env : String)
    (hroot : root.secrets < h.next)
    (hws : ∀ w, ws = some w → w.secrets < h.next) :
    ((MergeH h (some root) ws env).2.read root.secrets = h.read root.secrets)
    ∧ (∀ w, ws = some w →
        (MergeH h (some root) ws env).2.read w.secrets = h.read w.secrets)
    ∧ mergedAgree (MergeH h (some root) ws env).2
        (MergeH (MergeH h (some root) ws env).2 (some root) ws env).2
        (MergeH h (some root) ws env).1
        (MergeH (MergeH h (some root) ws env).2 (some root) ws env).1 :=
  ⟨MergeH_read_lt h (some root) ws env root.secrets hroot,
   fun w hw => MergeH_read_lt h (some root) ws env w.secrets (hws w hw),
   MergeH_idem h (MergeH h (some root) ws env).2 root ws env
     (MergeH_read_lt h (some root) ws env root.secrets hroot)
     (fun w hw => MergeH_read_lt h (some root) ws env w.secrets (hws w hw))⟩



/-- Witness for C1's amended theorem at `ttl = 300`. -/
theorem vx_C1_witness :
    (RenewOnce (.ok "s.tok") (.ok ⟨300, none, true⟩) (.ok ⟨"s.renewed"⟩) ≠ .noRenewal)
      ↔ ((0 : Int) < 300 ∧ (300 : Int) < 1800) :=
  vx_C1_amended "s.tok" ⟨300, none, true⟩ (.ok ⟨"s.renewed"⟩) rfl

/-- Witness for C4: the spec's S3 scenario — base
`NODE_ENV="development"` with a `production` override. -/
theorem vx_C4_witness :
    (alookup [("NODE_ENV", "production")] "NODE_ENV"
      = specDefaultsOverlay
          ⟨⟨"https://v", "oidc", "role", "secret"⟩, ⟨"dev", ["dev", "production"]⟩, [], [],
            [("NODE_ENV", .vStr "development"),
             ("production", .vMap [("NODE_ENV", .vStr "production")])]⟩
          none "production" "NODE_ENV")
    ∧ alookup [("NODE_ENV", "production")] "NODE_ENV" = some "production"
    ∧ (alookup [("NODE_ENV", "development")] "NODE_ENV"
      = specDefaultsOverlay
          ⟨⟨"https://v", "oidc", "role", "secret"⟩, ⟨"dev", ["dev", "production"]⟩, [], [],
            [("NODE_ENV", .vStr "development"),
             ("production", .vMap [("NODE_ENV", .vStr "production")])]⟩
          none "dev" "NODE_ENV")
    ∧ alookup [("NODE_ENV", "development")] "NODE_ENV" = some "development" :=
  ⟨vx_C4
      ⟨⟨"https://v", "oidc", "role", "secret"⟩, ⟨"dev", ["dev", "production"]⟩, [], [],
        [("NODE_ENV", .vStr "development"),
         ("production", .vMap [("NODE_ENV", .vStr "production")])]⟩
      none "production" "NODE_ENV"
      ⟨⟨"https://v", "oidc", "role", "secret"⟩, "production", [],
        [("NODE_ENV", "production")]⟩
      rfl (by decide) (by decide) (fun w hw => nomatch hw),
   rfl,
   vx_C4
      ⟨⟨"https://v", "oidc", "role", "secret"⟩, ⟨"dev", ["dev", "production"]⟩, [], [],
        [("NODE_ENV", .vStr "development"),
         ("production", .vMap [("NODE_ENV", .vStr "production")])]⟩
      none "dev" "NODE_ENV"
      ⟨⟨"https://v", "oidc", "role", "secret"⟩, "dev", [],
        [("NODE_ENV", "development")]⟩
      rfl (by decide) (by decide) (fun w hw => nomatch hw),
   rfl⟩

/-- Witness for C6 on a one-cell heap. -/
theorem vx_C6_witness :
    cacheScenario ⟨60, []⟩ ⟨1, fun _ => [("url", "pg://dev")]⟩ 0 10 20 "dev/database" 0
      "x" "mutated" "x" "mutated"
      = some ([("url", "pg://dev")], [("url", "pg://dev")]) :=
  vx_C6 ⟨60, []⟩ ⟨1, fun _ => [("url", "pg://dev")]⟩ 0 10 20 "dev/database" 0
    "x" "mutated" "x" "mutated" (by decide) (by decide) (by decide)

/-- Witness for C8 on a two-cell heap. -/
theorem vx_C8_witness :
    ((MergeH ⟨2, fun r => if r = 0 then [("A", "x")] else [("B", "y")]⟩
        (some ⟨⟨"a", "oidc", "r", "s"⟩, ⟨"dev", ["dev"]⟩, [], 0, []⟩)
        (some ⟨1, []⟩) "dev").2.read 0
      = Heap.read ⟨2, fun r => if r = 0 then [("A", "x")] else [("B", "y")]⟩ 0)
    ∧ (∀ w, (some ⟨1, []⟩ : Option WorkspaceConfigRef) = some w →
        (MergeH ⟨2, fun r => if r = 0 then [("A", "x")] else [("B", "y")]⟩
          (some ⟨⟨"a", "oidc", "r", "s"⟩, ⟨"dev", ["dev"]⟩, [], 0, []⟩)
          (some ⟨1, []⟩) "dev").2.read w.secrets
        = Heap.read ⟨2, fun r => if r = 0 then [("A", "x")] else [("B", "y")]⟩ w.secrets)
    ∧ mergedAgree
        (MergeH ⟨2, fun r => if r = 0 then [("A", "x")] else [("B", "y")]⟩
          (some ⟨⟨"a", "oidc", "r", "s"⟩, ⟨"dev", ["dev"]⟩, [], 0, []⟩)
          (some ⟨1, []⟩) "dev").2
        (MergeH
          (MergeH ⟨2, fun r => if r = 0 then [("A", "x")] else [("B", "y")]⟩
            (some ⟨⟨"a", "oidc", "r", "s"⟩, ⟨"dev", ["dev"]⟩, [], 0, []⟩)
            (some ⟨1, []⟩) "dev").2
          (some ⟨⟨"a", "oidc", "r", "s"⟩, ⟨"dev", ["dev"]⟩, [], 0, []⟩)
          (some ⟨1, []⟩) "dev").2
        (MergeH ⟨2, fun r => if r = 0 then [("A", "x")] else [("B", "y")]⟩
          (some ⟨⟨"a", "oidc", "r", "s"⟩, ⟨"dev", ["dev"]⟩, [], 0, []⟩)
          (some ⟨1, []⟩) "dev").1
        (MergeH
          (MergeH ⟨2, fun r => if r = 0 then [("A", "x")] else [("B", "y")]⟩
            (some ⟨⟨"a", "oidc", "r", "s"⟩, ⟨"dev", ["dev"]⟩, [], 0, []⟩)
            (some ⟨1, []⟩) "dev").2
          (some ⟨⟨"a", "oidc", "r", "s"⟩, ⟨"dev", ["dev"]⟩, [], 0, []⟩)
          (some ⟨1, []⟩) "dev").1 :=
  vx_C8 ⟨2, fun r => if r = 0 then [("A", "x")] else [("B", "y")]⟩
    ⟨⟨"a", "oidc", "r", "s"⟩, ⟨"dev", ["dev"]⟩, [], 0, []⟩
    (some ⟨1, []⟩) "dev" (by decide) (fun w hw => by cases hw; decide)

end VX
